import Mathlib

/-!
Verification of `scripts/generate_ui_report.py`.

Shallow embedding conventions:
* Python strings are modelled as `List Char`; Python integers as `ℤ` (or `ℕ`
  where the source value is manifestly a count).
* `round((i * (total - 1)) / (max_captures - 1))` is Python float division
  followed by `round`; it is modelled by exact rational arithmetic with
  Python's rounding rule (nearest integer, ties to even), which agrees with
  the float computation on all realistically sized frame counts.
* The recursion in `str.split` is fuelled by the input length so that every
  definition is structural and evaluates inside the kernel.
* Filesystem effects are modelled by an explicit `FS` record (path
  resolution, existence, and content of the input file) and a `RunOutcome`
  value listing every write the process would perform.
-/

/-- Decimal digits of a natural number, as produced by Python `str(n)`. -/
def natDigits (n : ℕ) : List Char := (toString n).toList

/-- Decimal rendering of an integer, as produced by Python `str(n)`. -/
def intDigits (n : ℤ) : List Char :=
  if n < 0 then '-' :: natDigits n.natAbs else natDigits n.toNat

/-- Python `f"{n:0wd}"`: the decimal digits of `n` zero-padded to width `w`
(the sign, when present, counts towards the width and precedes the zeros). -/
def pyPad (w : ℕ) (n : ℤ) : List Char :=
  if n < 0 then
    '-' :: (List.replicate (w - 1 - (natDigits n.natAbs).length) '0' ++ natDigits n.natAbs)
  else
    List.replicate (w - (natDigits n.toNat).length) '0' ++ natDigits n.toNat

/-- Python `"\n".join(lines)`. -/
def joinNL : List (List Char) → List Char
  | [] => []
  | [x] => x
  | x :: xs => x ++ '\n' :: joinNL xs

/-- The line-boundary characters recognised by Python `str.splitlines`. -/
def isLineBreak (c : Char) : Bool :=
  c == '\n' || c == '\r' || c == '\x0b' || c == '\x0c' ||
  c == '\x1c' || c == '\x1d' || c == '\x1e' || c == '\x85' ||
  c == '\u2028' || c == '\u2029'

/-- Worker for Python `str.splitlines` (`acc` holds the current line,
reversed; `"\r\n"` counts as a single boundary; a final unterminated line is
kept only when non-empty).  The fuel argument (instantiated with the input
length, an upper bound on the number of steps) only makes the recursion
structural; it never changes the result. -/
def pySplitlinesGoF : ℕ → List Char → List Char → List (List Char)
  | _, acc, [] => if acc.isEmpty then [] else [acc.reverse]
  | 0, acc, l => [acc.reverse ++ l]
  | fuel+1, acc, c :: cs =>
    if c = '\r' then
      acc.reverse :: pySplitlinesGoF fuel [] (if cs.head? = some '\n' then cs.tail else cs)
    else if isLineBreak c then acc.reverse :: pySplitlinesGoF fuel [] cs
    else pySplitlinesGoF fuel (c :: acc) cs

/-- Python `s.splitlines()`. -/
def pySplitlines (s : List Char) : List (List Char) := pySplitlinesGoF s.length [] s

/-- Python `str.isspace` on the whitespace characters that can appear in the
tool's ASCII-oriented inputs (`' '`, `'\t'`, `'\n'`, `'\r'`, `'\x0b'`,
`'\x0c'`). -/
def pyIsSpace (c : Char) : Bool :=
  c == ' ' || c == '\t' || c == '\n' || c == '\r' || c == '\x0b' || c == '\x0c'

/-- Python `s.strip()`: remove leading and trailing whitespace. -/
def pyStripAll (s : List Char) : List Char :=
  ((s.dropWhile pyIsSpace).reverse.dropWhile pyIsSpace).reverse

/-- Python `s.strip("\n")`, leading part. -/
def stripLeadNL (s : List Char) : List Char := s.dropWhile (· == '\n')

/-- Python `s.strip("\n")`, trailing part. -/
def dropTrailNL (s : List Char) : List Char := (s.reverse.dropWhile (· == '\n')).reverse

/-- Python `s.strip("\n")`: remove leading and trailing newline characters. -/
def stripNL (s : List Char) : List Char := dropTrailNL (stripLeadNL s)

/-- The literal frame marker `"---FRAME---"` from `split_frames`. -/
def FRAME_MARKER : List Char := ("---FRAME---").toList

/-- The full separator `"\n---FRAME---\n"` that `split_frames` splits on. -/
def FRAME_SEP : List Char := ("\n---FRAME---\n").toList

/-- Python `needle in hay` (substring containment). -/
def containsSub (needle : List Char) : List Char → Bool
  | [] => needle.isEmpty
  | c :: cs => needle.isPrefixOf (c :: cs) || containsSub needle cs

/-- Worker for Python `s.split(sep)` with non-empty `sep`: split at each
leftmost non-overlapping occurrence of `sep`.  The fuel argument (instantiated
with `s.length`, an upper bound on the number of steps) only makes the
recursion structural; it never changes the result. -/
def pySplitGoF (sep : List Char) : ℕ → List Char → List Char → List (List Char)
  | _, acc, [] => [acc.reverse]
  | 0, acc, l => [acc.reverse ++ l]
  | fuel+1, acc, c :: cs =>
    if sep.isPrefixOf (c :: cs) then
      acc.reverse :: pySplitGoF sep fuel [] (cs.drop (sep.length - 1))
    else pySplitGoF sep fuel (c :: acc) cs

/-- Python `s.split(sep)` for non-empty `sep`. -/
def pySplit (sep s : List Char) : List (List Char) := pySplitGoF sep s.length [] s

/-- Number of leftmost non-overlapping occurrences of `sep` (the count Python
`s.count(sep)` returns, and the notion of "occurrence" `str.split` splits
at); same fuel discipline as `pySplitGoF`. -/
def countSepF (sep : List Char) : ℕ → List Char → ℕ
  | _, [] => 0
  | 0, _ => 0
  | fuel+1, c :: cs =>
    if sep.isPrefixOf (c :: cs) then countSepF sep fuel (cs.drop (sep.length - 1)) + 1
    else countSepF sep fuel cs

/-- Occurrence count of `sep` in `s`. -/
def countSep (sep s : List Char) : ℕ := countSepF sep s.length s

/-- `split_frames` from the source: split on the separator line when the
marker occurs in the text, and strip newlines from each resulting segment. -/
def split_frames (raw_text : List Char) : List (List Char) :=
  if containsSub FRAME_MARKER raw_text then
    (pySplit FRAME_SEP raw_text).map stripNL
  else [stripNL raw_text]

/-- The placeholder frame substituted when no non-empty frame remains. -/
def PLACEHOLDER : List Char := ("(No non-empty terminal output captured)").toList

/-- `frames` as computed in `main`: drop frames that are empty after
`strip()`, and fall back to the placeholder when nothing remains. -/
def nonEmptyFrames (raw_text : List Char) : List (List Char) :=
  let fs := (split_frames raw_text).filter (fun f => !(pyStripAll f).isEmpty)
  if fs.isEmpty then [PLACEHOLDER] else fs

/-- Python `round` on an exact rational: nearest integer, ties to even. -/
def pyRound (q : ℚ) : ℤ :=
  if q - ⌊q⌋ < 1/2 then ⌊q⌋
  else if 1/2 < q - ⌊q⌋ then ⌊q⌋ + 1
  else if 2 ∣ ⌊q⌋ then ⌊q⌋ else ⌊q⌋ + 1

/-- The set comprehension from `pick_indices`: sampled candidate indices. -/
def sampleSet (total max_captures : ℤ) : Finset ℤ :=
  (Finset.range max_captures.toNat).image
    (fun (i : ℕ) => pyRound (((i : ℚ) * ((total : ℚ) - 1)) / ((max_captures : ℚ) - 1)))

/-- `pick_indices` from the source. -/
def pick_indices (total max_captures : ℤ) : List ℤ :=
  if total ≤ 0 then []
  else if max_captures ≤ 1 ∨ total = 1 then [0]
  else if total ≤ max_captures then (List.range total.toNat).map (fun (i : ℕ) => (i : ℤ))
  else (sampleSet total max_captures).sort (· ≤ ·)

/-- The command-line arguments consumed by `main` (`pfx` is `--prefix`). -/
structure Args where
  input_file : List Char
  output_dir : List Char
  pfx : List Char
  max_captures : ℤ
  lines_per_capture : ℤ
deriving DecidableEq

/-- The filesystem facts `main` reads: `Path.resolve`, `Path.exists`, and
`Path.read_text`. -/
structure FS where
  resolve : List Char → List Char
  exists_file : List Char → Bool
  content : List Char → List Char

/-- One entry of `capture_entries`, together with the text written to the
capture file (`text`; the file receives `text ++ "\n"`). -/
structure Capture where
  frame_idx : ℤ
  path : List Char
  text : List Char
  preview : List Char
deriving DecidableEq

/-- The content `capture_path.write_text` stores: frame text plus a single
trailing newline. -/
def Capture.written (c : Capture) : List Char := c.text ++ ['\n']

/-- Everything a successful run computes and persists. -/
structure RunResult where
  input_path : List Char
  output_dir : List Char
  frames : List (List Char)
  indices : List ℤ
  captures : List Capture
  report_path : List Char
  report_lines : List (List Char)
  report : List Char
deriving DecidableEq

/-- Process outcome: `failure` is the uncaught `FileNotFoundError` (non-zero
exit status), `success` the normal exit 0. -/
inductive RunOutcome where
  | failure (msg : List Char)
  | success (r : RunResult)
deriving DecidableEq

/-- The `for capture_no, frame_idx in enumerate(indices, start=1)` loop:
capture file path, written frame text and truncated preview per entry. -/
def capturesOf (output_dir pfx ts : List Char) (lpc : ℤ)
    (frames : List (List Char)) (indices : List ℤ) : List Capture :=
  (List.enumFrom 1 indices).map (fun p =>
    let frame_text := (frames.get? p.2.toNat).getD []
    { frame_idx := p.2
      path := output_dir ++ ['/'] ++ pfx ++ ['-'] ++ ts ++ ("-capture-").toList ++
        pyPad 2 (p.1 : ℤ) ++ ("-frame-").toList ++ pyPad 4 p.2 ++ (".txt").toList
      text := frame_text
      preview := joinNL ((pySplitlines frame_text).take (max 1 lpc).toNat) })

/-- The markdown lines accumulated in `lines` before `"\n".join(lines)`. -/
def reportLinesOf (generated_at input_path : List Char)
    (frames : List (List Char)) (caps : List Capture) : List (List Char) :=
  [("# Terminal UI Test Report").toList,
   [],
   ("- Generated at (UTC): `").toList ++ generated_at ++ ("`").toList,
   ("- Source input: `").toList ++ input_path ++ ("`").toList,
   ("- Total frames detected: `").toList ++ natDigits frames.length ++ ("`").toList,
   ("- Captures included: `").toList ++ natDigits caps.length ++ ("`").toList,
   [],
   ("## Screen Captures").toList,
   []] ++
  caps.flatMap (fun c =>
    [("### Frame ").toList ++ intDigits c.frame_idx,
     ("- Capture file: `").toList ++ c.path ++ ("`").toList,
     [],
     ("```text").toList,
     c.preview,
     ("```").toList,
     []])

/-- The success path of `main`, after the input-existence check passed:
frames, index selection, capture entries, report document. -/
def runPipeline (fs : FS) (ts ga : List Char) (args : Args) : RunResult :=
  let input_path := fs.resolve args.input_file
  let output_dir := fs.resolve args.output_dir
  let frames := nonEmptyFrames (fs.content input_path)
  let indices := pick_indices (frames.length : ℤ) (max 1 args.max_captures)
  let caps := capturesOf output_dir args.pfx ts args.lines_per_capture frames indices
  let rlines := reportLinesOf ga input_path frames caps
  { input_path := input_path
    output_dir := output_dir
    frames := frames
    indices := indices
    captures := caps
    report_path := output_dir ++ ['/'] ++ args.pfx ++ ['-'] ++ ts ++ (".md").toList
    report_lines := rlines
    report := joinNL rlines }

/-- `main` from the source: resolve the input path, abort with
`FileNotFoundError` when it does not exist (before any directory or file is
created), otherwise run the pipeline.  `ts`/`ga` are the wall-clock strings
`timestamp` and `generated_at` captured once at startup. -/
def main_model (fs : FS) (ts ga : List Char) (args : Args) : RunOutcome :=
  if fs.exists_file (fs.resolve args.input_file) then
    RunOutcome.success (runPipeline fs ts ga args)
  else
    RunOutcome.failure (("Input file not found: ").toList ++ fs.resolve args.input_file)

/-- Frames of a run (empty on failure). -/
def outcomeFrames : RunOutcome → List (List Char)
  | RunOutcome.failure _ => []
  | RunOutcome.success r => r.frames

/-- Selected indices of a run (empty on failure). -/
def outcomeIndices : RunOutcome → List ℤ
  | RunOutcome.failure _ => []
  | RunOutcome.success r => r.indices

/-- Capture entries of a run (empty on failure). -/
def outcomeCaptures : RunOutcome → List Capture
  | RunOutcome.failure _ => []
  | RunOutcome.success r => r.captures

/-- Markdown lines of the report of a run (empty on failure). -/
def outcomeReportLines : RunOutcome → List (List Char)
  | RunOutcome.failure _ => []
  | RunOutcome.success r => r.report_lines

/-- Every file write the process performs, in order: one per capture, then
the report.  A failed run writes nothing. -/
def writesOf : RunOutcome → List (List Char × List Char)
  | RunOutcome.failure _ => []
  | RunOutcome.success r =>
      r.captures.map (fun c => (c.path, c.written)) ++ [(r.report_path, r.report)]

/-- Every directory creation the process performs (`output_dir.mkdir`).  A
failed run creates none. -/
def dirsOf : RunOutcome → List (List Char)
  | RunOutcome.failure _ => []
  | RunOutcome.success r => [r.output_dir]

/-! ### Helper lemmas about `pyRound` -/

theorem pyRound_intCast (n : ℤ) : pyRound ((n : ℚ)) = n := by
  unfold pyRound
  rw [Int.floor_intCast, sub_self]
  norm_num

theorem pyRound_le {q : ℚ} {b : ℤ} (h : q ≤ (b : ℚ)) : pyRound q ≤ b := by
  have hfl : ⌊q⌋ ≤ b := by
    have hq := Int.floor_mono h
    rwa [Int.floor_intCast] at hq
  unfold pyRound
  split_ifs with h1 h2 h3
  · exact hfl
  · have hlt : (⌊q⌋ : ℚ) < q := by push_neg at h1; linarith
    have hb : ⌊q⌋ < b := by exact_mod_cast lt_of_lt_of_le hlt h
    omega
  · exact hfl
  · have hlt : (⌊q⌋ : ℚ) < q := by push_neg at h1; linarith
    have hb : ⌊q⌋ < b := by exact_mod_cast lt_of_lt_of_le hlt h
    omega

theorem le_pyRound {q : ℚ} {a : ℤ} (h : (a : ℚ) ≤ q) : a ≤ pyRound q := by
  have hfl : a ≤ ⌊q⌋ := by
    have hq := Int.floor_mono h
    rwa [Int.floor_intCast] at hq
  unfold pyRound
  split_ifs <;> omega

/-! ### Helper lemmas: head and last of sorted lists -/

theorem head?_eq_of_min {l : List ℤ} (hs : l.Sorted (· ≤ ·)) {a : ℤ} (ha : a ∈ l)
    (hmin : ∀ y ∈ l, a ≤ y) : l.head? = some a := by
  cases l with
  | nil => cases ha
  | cons x xs =>
    have hx : a ≤ x := hmin x (List.mem_cons_self x xs)
    have hxa : x ≤ a := by
      rcases List.mem_cons.mp ha with h | h
      · exact le_of_eq h.symm
      · exact (List.sorted_cons.mp hs).1 a h
    simp [le_antisymm hxa hx]

theorem getLast?_eq_of_max {l : List ℤ} (hs : l.Sorted (· ≤ ·)) {a : ℤ} (ha : a ∈ l)
    (hmax : ∀ y ∈ l, y ≤ a) : l.getLast? = some a := by
  induction l with
  | nil => cases ha
  | cons x xs ih =>
    cases xs with
    | nil =>
      rcases List.mem_cons.mp ha with h | h
      · simp [h]
      · cases h
    | cons y ys =>
      rw [List.getLast?_cons_cons]
      have hsy : (y :: ys).Sorted (· ≤ ·) := (List.sorted_cons.mp hs).2
      have hmem : a ∈ y :: ys := by
        rcases List.mem_cons.mp ha with h | h
        · have hxy : x ≤ y := (List.sorted_cons.mp hs).1 y (List.mem_cons_self y ys)
          have hyx : y ≤ a := hmax y (List.mem_cons_of_mem x (List.mem_cons_self y ys))
          have hya : y = a := le_antisymm hyx (by rw [h]; exact hxy)
          rw [← hya]
          exact List.mem_cons_self y ys
        · exact h
      exact ih hsy hmem (fun z hz => hmax z (List.mem_cons_of_mem x hz))

/-! ### Helper lemmas about `pick_indices` -/

theorem pick_indices_sorted (total mc : ℤ) : (pick_indices total mc).Sorted (· < ·) := by
  unfold pick_indices
  split_ifs with h1 h2 h3
  · exact List.sorted_nil
  · exact List.sorted_singleton 0
  · refine List.pairwise_map.mpr ?_
    exact (List.pairwise_lt_range total.toNat).imp (fun h => by exact_mod_cast h)
  · exact Finset.sort_sorted_lt _

theorem mem_sampleSet_bounds {total mc : ℤ} (ht : 1 < total) (hm : 1 < mc) {x : ℤ}
    (hx : x ∈ sampleSet total mc) : 0 ≤ x ∧ x ≤ total - 1 := by
  rcases Finset.mem_image.mp hx with ⟨i, hi, rfl⟩
  have hiR := Finset.mem_range.mp hi
  have hmQ : (0 : ℚ) < (mc : ℚ) - 1 := by
    have h2 : (1 : ℚ) < (mc : ℚ) := by exact_mod_cast hm
    linarith
  have htQ : (0 : ℚ) ≤ (total : ℚ) - 1 := by
    have h2 : (1 : ℚ) < (total : ℚ) := by exact_mod_cast ht
    linarith
  constructor
  · apply le_pyRound
    push_cast
    exact div_nonneg (mul_nonneg (by positivity) htQ) (le_of_lt hmQ)
  · apply pyRound_le
    have hi1 : (i : ℚ) ≤ (mc : ℚ) - 1 := by
      have hiZ : (i : ℤ) ≤ mc - 1 := by omega
      exact_mod_cast hiZ
    push_cast
    rw [div_le_iff₀ hmQ]
    nlinarith [mul_le_mul_of_nonneg_right hi1 htQ]

theorem zero_mem_sampleSet {total mc : ℤ} (hm : 1 < mc) : (0 : ℤ) ∈ sampleSet total mc := by
  apply Finset.mem_image.mpr
  refine ⟨0, Finset.mem_range.mpr (by omega), ?_⟩
  have h0 : ((0 : ℕ) : ℚ) * ((total : ℚ) - 1) / ((mc : ℚ) - 1) = ((0 : ℤ) : ℚ) := by
    push_cast
    ring
  rw [h0, pyRound_intCast]

theorem last_mem_sampleSet {total mc : ℤ} (hm : 1 < mc) :
    total - 1 ∈ sampleSet total mc := by
  apply Finset.mem_image.mpr
  refine ⟨mc.toNat - 1, Finset.mem_range.mpr (by omega), ?_⟩
  have hmQ : (mc : ℚ) - 1 ≠ 0 := by
    have h2 : (1 : ℚ) < (mc : ℚ) := by exact_mod_cast hm
    linarith
  have hcast : ((mc.toNat - 1 : ℕ) : ℚ) = (mc : ℚ) - 1 := by
    have h1 : ((mc.toNat - 1 : ℕ) : ℤ) = mc - 1 := by omega
    exact_mod_cast congrArg (fun z : ℤ => (z : ℚ)) h1
  rw [hcast, mul_div_cancel_left₀ _ hmQ]
  have h2 : (total : ℚ) - 1 = ((total - 1 : ℤ) : ℚ) := by push_cast; ring
  rw [h2, pyRound_intCast]

theorem pick_indices_eq_range {total mc : ℤ} (ht : 1 < total) (hm : 1 < mc)
    (hle : total ≤ mc) :
    pick_indices total mc = (List.range total.toNat).map (fun (i : ℕ) => (i : ℤ)) := by
  unfold pick_indices
  rw [if_neg (by omega), if_neg (by omega), if_pos hle]

theorem pick_indices_eq_sort {total mc : ℤ} (ht : 1 < total) (hm : 1 < mc)
    (hgt : ¬ total ≤ mc) :
    pick_indices total mc = (sampleSet total mc).sort (· ≤ ·) := by
  unfold pick_indices
  rw [if_neg (by omega), if_neg (by omega), if_neg hgt]

theorem pick_indices_mem_bounds {total mc : ℤ} (ht : 1 < total) (hm : 1 < mc) :
    ∀ x ∈ pick_indices total mc, 0 ≤ x ∧ x ≤ total - 1 := by
  intro x hx
  by_cases hle : total ≤ mc
  · rw [pick_indices_eq_range ht hm hle] at hx
    rcases List.mem_map.mp hx with ⟨i, hi, rfl⟩
    have := List.mem_range.mp hi
    omega
  · rw [pick_indices_eq_sort ht hm hle] at hx
    exact mem_sampleSet_bounds ht hm ((Finset.mem_sort _).mp hx)

theorem pick_indices_zero_mem {total mc : ℤ} (ht : 1 < total) (hm : 1 < mc) :
    (0 : ℤ) ∈ pick_indices total mc := by
  by_cases hle : total ≤ mc
  · rw [pick_indices_eq_range ht hm hle]
    exact List.mem_map.mpr ⟨0, List.mem_range.mpr (by omega), by simp⟩
  · rw [pick_indices_eq_sort ht hm hle]
    exact (Finset.mem_sort _).mpr (zero_mem_sampleSet hm)

theorem pick_indices_last_mem {total mc : ℤ} (ht : 1 < total) (hm : 1 < mc) :
    total - 1 ∈ pick_indices total mc := by
  by_cases hle : total ≤ mc
  · rw [pick_indices_eq_range ht hm hle]
    refine List.mem_map.mpr ⟨total.toNat - 1, List.mem_range.mpr (by omega), by omega⟩
  · rw [pick_indices_eq_sort ht hm hle]
    exact (Finset.mem_sort _).mpr (last_mem_sampleSet hm)

theorem pick_indices_length_le {total mc : ℤ} (ht : 1 < total) (hm : 1 < mc) :
    ((pick_indices total mc).length : ℤ) ≤ mc := by
  by_cases hle : total ≤ mc
  · rw [pick_indices_eq_range ht hm hle]
    rw [List.length_map, List.length_range]
    omega
  · rw [pick_indices_eq_sort ht hm hle, Finset.length_sort]
    have hc : (sampleSet total mc).card ≤ mc.toNat := by
      unfold sampleSet
      exact le_trans Finset.card_image_le (le_of_eq (Finset.card_range _))
    omega

/-! ### Claims C1, C2, C8 -/

/-- C1: for `total > 1` and `max_captures > 1`, `pick_indices` returns a
strictly increasing (hence duplicate-free) list of indices inside
`[0, total)`, of length at most `max_captures`, starting at `0` and ending at
`total - 1`. -/
theorem pick_indices_sampling_spec (total mc : ℤ) (ht : 1 < total) (hm : 1 < mc) :
    (pick_indices total mc).Sorted (· < ·) ∧
    (∀ x ∈ pick_indices total mc, 0 ≤ x ∧ x < total) ∧
    ((pick_indices total mc).length : ℤ) ≤ mc ∧
    (pick_indices total mc).head? = some 0 ∧
    (pick_indices total mc).getLast? = some (total - 1) := by
  have hbounds := pick_indices_mem_bounds ht hm
  have hsle : (pick_indices total mc).Sorted (· ≤ ·) :=
    (pick_indices_sorted total mc).imp le_of_lt
  refine ⟨pick_indices_sorted total mc, ?_, pick_indices_length_le ht hm, ?_, ?_⟩
  · intro x hx
    have := hbounds x hx
    omega
  · exact head?_eq_of_min hsle (pick_indices_zero_mem ht hm)
      (fun y hy => (hbounds y hy).1)
  · exact getLast?_eq_of_max hsle (pick_indices_last_mem ht hm)
      (fun y hy => (hbounds y hy).2)

theorem pick_indices_sampling_spec_witness :
    (pick_indices 10 3).Sorted (· < ·) ∧
    (∀ x ∈ pick_indices 10 3, 0 ≤ x ∧ x < 10) ∧
    ((pick_indices 10 3).length : ℤ) ≤ 3 ∧
    (pick_indices 10 3).head? = some 0 ∧
    (pick_indices 10 3).getLast? = some (10 - 1) :=
  pick_indices_sampling_spec 10 3 (by norm_num) (by norm_num)

/-- C2: the case analysis of `pick_indices`: empty at `total = 0`; `[0]` when
`max_captures ≤ 1` or `total = 1`; all of `0, …, total - 1` in ascending
order when `1 ≤ total ≤ max_captures` with `max_captures > 1`. -/
theorem pick_indices_case_analysis (n m : ℤ) :
    pick_indices 0 m = [] ∧
    (1 ≤ n → m ≤ 1 ∨ n = 1 → pick_indices n m = [0]) ∧
    (1 ≤ n → n ≤ m → 1 < m → pick_indices n m = (List.range n.toNat).map (fun (i : ℕ) => (i : ℤ))) := by
  refine ⟨?_, ?_, ?_⟩
  · unfold pick_indices
    simp
  · intro h1 h2
    unfold pick_indices
    rw [if_neg (by omega), if_pos h2]
  · intro h1 h2 h3
    by_cases hn1 : n = 1
    · subst hn1
      unfold pick_indices
      rw [if_neg (by omega), if_pos (Or.inr rfl)]
      decide
    · unfold pick_indices
      rw [if_neg (by omega), if_neg (by omega), if_pos h2]

theorem pick_indices_case_analysis_witness :
    pick_indices 0 7 = [] ∧
    pick_indices 5 1 = [0] ∧
    pick_indices 3 7 = (List.range (3 : ℤ).toNat).map (fun (i : ℕ) => (i : ℤ)) :=
  ⟨(pick_indices_case_analysis 0 7).1,
   (pick_indices_case_analysis 5 1).2.1 (by norm_num) (Or.inl (by norm_num)),
   (pick_indices_case_analysis 3 7).2.2 (by norm_num) (by norm_num) (by norm_num)⟩

/-- C8: `pick_indices` is a pure function of its two arguments — its
embedding reads no state of any kind, so two calls on identical arguments
return identical results. -/
theorem pick_indices_deterministic (t1 m1 t2 m2 : ℤ) (ht : t1 = t2) (hm : m1 = m2) :
    pick_indices t1 m1 = pick_indices t2 m2 := by
  rw [ht, hm]

theorem pick_indices_deterministic_witness : pick_indices 6 2 = pick_indices 6 2 :=
  pick_indices_deterministic 6 2 6 2 rfl rfl

/-! ### Helper lemmas about `containsSub`, `countSep`, `pySplit`, `stripNL` -/

theorem containsSub_iff (needle : List Char) :
    ∀ hay, containsSub needle hay = true ↔ needle <:+: hay := by
  intro hay
  induction hay with
  | nil =>
    simp [containsSub, List.isEmpty_iff, List.infix_nil]
  | cons c cs ih =>
    simp [containsSub, Bool.or_eq_true, ih, List.isPrefixOf_iff_prefix,
      List.infix_cons_iff]

theorem marker_infix_sep : FRAME_MARKER <:+: FRAME_SEP := by decide

theorem countSepF_eq_zero_of_not_infix (sep : List Char) :
    ∀ (fuel : ℕ) (l : List Char), ¬ sep <:+: l → countSepF sep fuel l = 0 := by
  intro fuel
  induction fuel with
  | zero => intro l _; cases l <;> rfl
  | succ fuel ih =>
    intro l h
    cases l with
    | nil => rfl
    | cons c cs =>
      have hnp : ¬ sep.isPrefixOf (c :: cs) = true := by
        intro hp
        exact h (List.isPrefixOf_iff_prefix.mp hp).isInfix
      simp only [countSepF, if_neg hnp]
      exact ih cs (fun hinf => h (List.infix_cons hinf))

theorem pySplitGoF_length (sep : List Char) :
    ∀ (fuel : ℕ) (acc l : List Char),
      (pySplitGoF sep fuel acc l).length = countSepF sep fuel l + 1 := by
  intro fuel
  induction fuel with
  | zero => intro acc l; cases l <;> rfl
  | succ fuel ih =>
    intro acc l
    cases l with
    | nil => rfl
    | cons c cs =>
      by_cases hp : sep.isPrefixOf (c :: cs) = true
      · simp only [pySplitGoF, countSepF, if_pos hp, List.length_cons, ih]
      · simp only [pySplitGoF, countSepF, if_neg hp]
        exact ih (c :: acc) cs

theorem pySplitGoF_of_count_zero (sep : List Char) :
    ∀ (fuel : ℕ) (acc l : List Char), countSepF sep fuel l = 0 →
      pySplitGoF sep fuel acc l = [acc.reverse ++ l] := by
  intro fuel
  induction fuel with
  | zero => intro acc l _; cases l <;> simp [pySplitGoF]
  | succ fuel ih =>
    intro acc l h
    cases l with
    | nil => simp [pySplitGoF]
    | cons c cs =>
      by_cases hp : sep.isPrefixOf (c :: cs) = true
      · exfalso
        simp only [countSepF, if_pos hp] at h
        omega
      · simp only [countSepF, if_neg hp] at h
        simp only [pySplitGoF, if_neg hp]
        rw [ih (c :: acc) cs h]
        simp

theorem head?_dropWhile_not (p : Char → Bool) (l : List Char) :
    ∀ a, (l.dropWhile p).head? = some a → p a = false := by
  induction l with
  | nil => intro a h; cases h
  | cons c cs ih =>
    intro a h
    by_cases hc : p c = true
    · rw [List.dropWhile_cons, if_pos hc] at h
      exact ih a h
    · rw [List.dropWhile_cons, if_neg hc] at h
      simp only [List.head?_cons, Option.some.injEq] at h
      rw [← h]
      exact Bool.not_eq_true _ |>.mp hc

theorem head?_of_prefix {l₁ l₂ : List Char} (h : l₁ <+: l₂) {a : Char}
    (ha : l₁.head? = some a) : l₂.head? = some a := by
  rcases h with ⟨t, rfl⟩
  cases l₁ with
  | nil => cases ha
  | cons x xs => simpa using ha

theorem dropTrailNL_pfx (t : List Char) : dropTrailNL t <+: t := by
  have hsuf : t.reverse.dropWhile (· == '\n') <:+ t.reverse :=
    List.dropWhile_suffix _
  have := List.reverse_prefix.mpr hsuf
  rwa [List.reverse_reverse] at this

theorem stripNL_head (s : List Char) : (stripNL s).head? ≠ some '\n' := by
  intro h
  have h2 : (stripLeadNL s).head? = some '\n' :=
    head?_of_prefix (dropTrailNL_pfx (stripLeadNL s)) h
  have := head?_dropWhile_not (· == '\n') s '\n' h2
  simp at this

theorem stripNL_last (s : List Char) : (stripNL s).getLast? ≠ some '\n' := by
  intro h
  unfold stripNL dropTrailNL at h
  rw [List.getLast?_reverse] at h
  have := head?_dropWhile_not (· == '\n') (stripLeadNL s).reverse '\n' h
  simp at this

theorem mem_split_frames_edges {raw f : List Char} (hf : f ∈ split_frames raw) :
    f.head? ≠ some '\n' ∧ f.getLast? ≠ some '\n' := by
  unfold split_frames at hf
  split_ifs at hf
  · rcases List.mem_map.mp hf with ⟨g, _, rfl⟩
    exact ⟨stripNL_head g, stripNL_last g⟩
  · rw [List.mem_singleton.mp hf]
    exact ⟨stripNL_head raw, stripNL_last raw⟩

/-! ### Claim C3 -/

/-- C3: `split_frames` returns `k + 1` frames where `k` is the number of
(leftmost, non-overlapping) occurrences of the separator `"\n---FRAME---\n"`
in the text; with no occurrence the result is exactly the input stripped of
leading/trailing newlines; and every returned frame is newline-stripped at
both ends. -/
theorem split_frames_count (raw : List Char) :
    (split_frames raw).length = countSep FRAME_SEP raw + 1 ∧
    (countSep FRAME_SEP raw = 0 → split_frames raw = [stripNL raw]) ∧
    (∀ f ∈ split_frames raw, f.head? ≠ some '\n' ∧ f.getLast? ≠ some '\n') := by
  refine ⟨?_, ?_, fun f hf => mem_split_frames_edges hf⟩
  · unfold split_frames
    by_cases hc : containsSub FRAME_MARKER raw = true
    · rw [if_pos hc, List.length_map]
      exact pySplitGoF_length FRAME_SEP raw.length [] raw
    · rw [if_neg hc]
      have h0 : countSep FRAME_SEP raw = 0 := by
        apply countSepF_eq_zero_of_not_infix
        intro hinf
        exact hc ((containsSub_iff FRAME_MARKER raw).mpr (marker_infix_sep.trans hinf))
      rw [h0]
      rfl
  · intro h0
    unfold split_frames
    by_cases hc : containsSub FRAME_MARKER raw = true
    · rw [if_pos hc]
      unfold pySplit
      rw [pySplitGoF_of_count_zero FRAME_SEP raw.length [] raw h0]
      simp
    · rw [if_neg hc]

theorem split_frames_count_witness :
    (split_frames (("x\n---FRAME---\ny").toList)).length =
      countSep FRAME_SEP (("x\n---FRAME---\ny").toList) + 1 ∧
    split_frames (("hello").toList) = [stripNL (("hello").toList)] ∧
    ((("x").toList).head? ≠ some '\n' ∧ (("x").toList).getLast? ≠ some '\n') :=
  ⟨(split_frames_count (("x\n---FRAME---\ny").toList)).1,
   (split_frames_count (("hello").toList)).2.1 (by decide),
   (split_frames_count (("x\n---FRAME---\ny").toList)).2.2 (("x").toList) (by decide)⟩

/-! ### Demo fixtures used by witnesses -/

/-- Demo startup timestamp (`now.strftime("%Y%m%dT%H%M%SZ")`). -/
def tsDemo : List Char := ("20250101T000000Z").toList

/-- Demo `generated_at` string (`now.isoformat()`). -/
def gaDemo : List Char := ("2025-01-01T00:00:00+00:00").toList

/-- The default command-line arguments. -/
def argsDemo : Args :=
  { input_file := ("in.txt").toList
    output_dir := (".").toList
    pfx := ("ui-report").toList
    max_captures := 5
    lines_per_capture := 40 }

/-- A filesystem whose input file is missing. -/
def fsMissingDemo : FS :=
  { resolve := fun p => p, exists_file := fun _ => false, content := fun _ => [] }

/-- A filesystem whose input file exists and is empty. -/
def fsEmptyDemo : FS :=
  { resolve := fun p => p, exists_file := fun _ => true, content := fun _ => [] }

/-- A filesystem whose input file contains `"hello\nworld"` (no separator). -/
def fsHelloDemo : FS :=
  { resolve := fun p => p, exists_file := fun _ => true,
    content := fun _ => ("hello\nworld").toList }

/-- A filesystem whose input file contains a carriage return (`"a\rb"`). -/
def fsCRDemo : FS :=
  { resolve := fun p => p, exists_file := fun _ => true,
    content := fun _ => ("a\rb").toList }

/-! ### Helper lemmas about `pyStripAll`, `nonEmptyFrames` and `main_model` -/

theorem pyStripAll_eq_nil_of_all_space {f : List Char}
    (h : ∀ c ∈ f, pyIsSpace c = true) : pyStripAll f = [] := by
  unfold pyStripAll
  rw [List.dropWhile_eq_nil_iff.mpr h]
  rfl

theorem nonEmptyFrames_ne_nil (raw : List Char) : nonEmptyFrames raw ≠ [] := by
  simp only [nonEmptyFrames]
  split_ifs with h
  · simp
  · intro heq
    exact h (List.isEmpty_iff.mpr heq)

theorem nonEmptyFrames_eq_filter (raw : List Char)
    (h : (split_frames raw).filter (fun g => !(pyStripAll g).isEmpty) ≠ []) :
    nonEmptyFrames raw = (split_frames raw).filter (fun g => !(pyStripAll g).isEmpty) := by
  simp only [nonEmptyFrames]
  rw [if_neg]
  intro hemp
  exact h (List.isEmpty_iff.mp hemp)

theorem nonEmptyFrames_last {raw f : List Char} (hf : f ∈ nonEmptyFrames raw) :
    f.getLast? ≠ some '\n' := by
  simp only [nonEmptyFrames] at hf
  split_ifs at hf with h
  · rw [List.mem_singleton.mp hf]
    decide
  · exact (mem_split_frames_edges (List.mem_filter.mp hf).1).2

theorem main_model_success (fs : FS) (ts ga : List Char) (args : Args)
    (h : fs.exists_file (fs.resolve args.input_file) = true) :
    main_model fs ts ga args = RunOutcome.success (runPipeline fs ts ga args) := by
  unfold main_model
  rw [h]
  simp

theorem runPipeline_frames (fs : FS) (ts ga : List Char) (args : Args) :
    (runPipeline fs ts ga args).frames =
      nonEmptyFrames (fs.content (fs.resolve args.input_file)) := rfl

theorem runPipeline_indices (fs : FS) (ts ga : List Char) (args : Args) :
    (runPipeline fs ts ga args).indices =
      pick_indices ((nonEmptyFrames (fs.content (fs.resolve args.input_file))).length : ℤ)
        (max 1 args.max_captures) := rfl

theorem runPipeline_captures (fs : FS) (ts ga : List Char) (args : Args) :
    (runPipeline fs ts ga args).captures =
      capturesOf (fs.resolve args.output_dir) args.pfx ts args.lines_per_capture
        (nonEmptyFrames (fs.content (fs.resolve args.input_file)))
        (pick_indices ((nonEmptyFrames (fs.content (fs.resolve args.input_file))).length : ℤ)
          (max 1 args.max_captures)) := rfl

theorem runPipeline_report_lines (fs : FS) (ts ga : List Char) (args : Args) :
    (runPipeline fs ts ga args).report_lines =
      reportLinesOf ga (fs.resolve args.input_file)
        (nonEmptyFrames (fs.content (fs.resolve args.input_file)))
        ((runPipeline fs ts ga args).captures) := rfl

/-! ### Claim C9 -/

/-- C9: a raw frame consisting only of non-newline whitespace survives the
newline-only edge stripping of `split_frames` but is dropped by the
`f.strip()` emptiness filter; conversely every frame that survives the
filter is an unmodified element of `split_frames raw` (so it keeps all its
leading/trailing non-newline whitespace) with non-empty `strip()`. -/
theorem whitespace_frame_filter (raw f : List Char) :
    (f ∈ split_frames raw → (∀ c ∈ f, pyIsSpace c = true ∧ c ≠ '\n') →
      f ∉ (split_frames raw).filter (fun g => !(pyStripAll g).isEmpty)) ∧
    (f ∈ (split_frames raw).filter (fun g => !(pyStripAll g).isEmpty) →
      f ∈ split_frames raw ∧ pyStripAll f ≠ []) := by
  constructor
  · intro _ hws hmem
    have hnil : pyStripAll f = [] :=
      pyStripAll_eq_nil_of_all_space (fun c hc => (hws c hc).1)
    have h2 := (List.mem_filter.mp hmem).2
    rw [hnil] at h2
    simp at h2
  · intro hmem
    have h1 := List.mem_filter.mp hmem
    refine ⟨h1.1, ?_⟩
    intro hnil
    have h2 := h1.2
    rw [hnil] at h2
    simp at h2

theorem whitespace_frame_filter_witness :
    ((("  ").toList) ∉
      (split_frames (("  ").toList)).filter (fun g => !(pyStripAll g).isEmpty)) ∧
    ((("ok").toList) ∈ split_frames (("ok").toList) ∧ pyStripAll (("ok").toList) ≠ []) :=
  ⟨(whitespace_frame_filter (("  ").toList) (("  ").toList)).1 (by decide) (by decide),
   (whitespace_frame_filter (("ok").toList) (("ok").toList)).2 (by decide)⟩

/-! ### Claim C4 -/

/-- C4: when the resolved input path does not exist, `main` terminates with
the uncaught `FileNotFoundError` naming the resolved path (non-zero exit
status), and performs no file write and no directory creation. -/
theorem missing_input_aborts (fs : FS) (ts ga : List Char) (args : Args)
    (h : fs.exists_file (fs.resolve args.input_file) = false) :
    main_model fs ts ga args =
      RunOutcome.failure (("Input file not found: ").toList ++ fs.resolve args.input_file) ∧
    writesOf (main_model fs ts ga args) = [] ∧
    dirsOf (main_model fs ts ga args) = [] := by
  have hmain : main_model fs ts ga args =
      RunOutcome.failure (("Input file not found: ").toList ++ fs.resolve args.input_file) := by
    unfold main_model
    rw [h]
    simp
  exact ⟨hmain, by rw [hmain]; rfl, by rw [hmain]; rfl⟩

theorem missing_input_aborts_witness :
    main_model fsMissingDemo tsDemo gaDemo argsDemo =
      RunOutcome.failure
        (("Input file not found: ").toList ++ fsMissingDemo.resolve argsDemo.input_file) ∧
    writesOf (main_model fsMissingDemo tsDemo gaDemo argsDemo) = [] ∧
    dirsOf (main_model fsMissingDemo tsDemo gaDemo argsDemo) = [] :=
  missing_input_aborts fsMissingDemo tsDemo gaDemo argsDemo rfl

/-! ### Claim C5 -/

/-- C5: whitespace-only frames are dropped (in order) by the filter, the
frame list handed to index selection is never empty (a placeholder frame is
substituted when needed), and on an empty input file the run succeeds with
exactly one placeholder frame and a report line stating that the total frame
count is 1. -/
theorem empty_frames_placeholder (raw : List Char) (fs : FS) (ts ga : List Char)
    (args : Args) (hex : fs.exists_file (fs.resolve args.input_file) = true)
    (hc : fs.content (fs.resolve args.input_file) = []) :
    nonEmptyFrames raw ≠ [] ∧
    ((split_frames raw).filter (fun g => !(pyStripAll g).isEmpty) ≠ [] →
      nonEmptyFrames raw = (split_frames raw).filter (fun g => !(pyStripAll g).isEmpty)) ∧
    outcomeFrames (main_model fs ts ga args) = [PLACEHOLDER] ∧
    ("- Total frames detected: `1`").toList ∈ outcomeReportLines (main_model fs ts ga args) := by
  have hframes : (runPipeline fs ts ga args).frames = [PLACEHOLDER] := by
    rw [runPipeline_frames, hc]
    decide
  refine ⟨nonEmptyFrames_ne_nil raw, nonEmptyFrames_eq_filter raw, ?_, ?_⟩
  · rw [main_model_success fs ts ga args hex]
    exact hframes
  · rw [main_model_success fs ts ga args hex]
    show ("- Total frames detected: `1`").toList ∈ (runPipeline fs ts ga args).report_lines
    rw [runPipeline_report_lines, hc]
    have h1 : nonEmptyFrames ([] : List Char) = [PLACEHOLDER] := by decide
    rw [h1]
    unfold reportLinesOf
    apply List.mem_append_left
    have h2 : ("- Total frames detected: `").toList ++
        natDigits ([PLACEHOLDER] : List (List Char)).length ++ ("`").toList =
        ("- Total frames detected: `1`").toList := by decide
    rw [← h2]
    exact List.mem_cons_of_mem _ (List.mem_cons_of_mem _ (List.mem_cons_of_mem _
      (List.mem_cons_of_mem _ (List.mem_cons_self _ _))))

theorem empty_frames_placeholder_witness :
    nonEmptyFrames (("\n\n").toList) ≠ [] ∧
    ((split_frames (("\n\n").toList)).filter (fun g => !(pyStripAll g).isEmpty) ≠ [] →
      nonEmptyFrames (("\n\n").toList) =
        (split_frames (("\n\n").toList)).filter (fun g => !(pyStripAll g).isEmpty)) ∧
    outcomeFrames (main_model fsEmptyDemo tsDemo gaDemo argsDemo) = [PLACEHOLDER] ∧
    ("- Total frames detected: `1`").toList ∈
      outcomeReportLines (main_model fsEmptyDemo tsDemo gaDemo argsDemo) :=
  empty_frames_placeholder (("\n\n").toList) fsEmptyDemo tsDemo gaDemo argsDemo rfl rfl

/-! ### Helper lemmas about `capturesOf` and `main_model` outcomes -/

theorem main_model_cases (fs : FS) (ts ga : List Char) (args : Args) :
    main_model fs ts ga args = RunOutcome.success (runPipeline fs ts ga args) ∨
    main_model fs ts ga args =
      RunOutcome.failure (("Input file not found: ").toList ++ fs.resolve args.input_file) := by
  unfold main_model
  split_ifs <;> simp

theorem mem_capturesOf {od pfx ts : List Char} {lpc : ℤ} {frames : List (List Char)}
    {indices : List ℤ} {cap : Capture}
    (h : cap ∈ capturesOf od pfx ts lpc frames indices) :
    cap.text = (frames.get? cap.frame_idx.toNat).getD [] ∧
    cap.preview = joinNL ((pySplitlines cap.text).take (max 1 lpc).toNat) := by
  unfold capturesOf at h
  rcases List.mem_map.mp h with ⟨p, _, rfl⟩
  exact ⟨rfl, rfl⟩

theorem capturesOf_get? (od pfx ts : List Char) (lpc : ℤ) (frames : List (List Char))
    (indices : List ℤ) (j : ℕ) (idx : ℤ) (h : indices.get? j = some idx) :
    (capturesOf od pfx ts lpc frames indices).get? j =
      some { frame_idx := idx
             path := od ++ ['/'] ++ pfx ++ ['-'] ++ ts ++ ("-capture-").toList ++
               pyPad 2 ((1 + j : ℕ) : ℤ) ++ ("-frame-").toList ++ pyPad 4 idx ++
               (".txt").toList
             text := (frames.get? idx.toNat).getD []
             preview := joinNL ((pySplitlines ((frames.get? idx.toNat).getD [])).take
               (max 1 lpc).toNat) } := by
  unfold capturesOf
  rw [List.get?_map, List.get?_enumFrom, h]
  rfl

/-! ### Claim C6 -/

/-- C6: the selected indices are traversed in ascending order; the `j`-th
capture (capture number `j + 1`) is written to
`output_dir/{prefix}-{timestamp}-capture-{NN}-frame-{FFFF}.txt` with `NN` the
2-digit zero-padded capture number and `FFFF` the 4-digit zero-padded frame
index, and its content is exactly the frame text plus one trailing
newline. -/
theorem capture_file_naming (fs : FS) (ts ga : List Char) (args : Args) (j : ℕ) (idx : ℤ)
    (h : (outcomeIndices (main_model fs ts ga args)).get? j = some idx) :
    List.Sorted (· < ·) (outcomeIndices (main_model fs ts ga args)) ∧
    ((outcomeCaptures (main_model fs ts ga args)).get? j).map Capture.path =
      some (fs.resolve args.output_dir ++ ['/'] ++ args.pfx ++ ['-'] ++ ts ++
        ("-capture-").toList ++ pyPad 2 ((j + 1 : ℕ) : ℤ) ++ ("-frame-").toList ++
        pyPad 4 idx ++ (".txt").toList) ∧
    ((outcomeCaptures (main_model fs ts ga args)).get? j).map Capture.written =
      some (((outcomeFrames (main_model fs ts ga args)).get? idx.toNat).getD [] ++ ['\n']) := by
  rcases main_model_cases fs ts ga args with hm | hm
  · rw [hm] at h ⊢
    simp only [outcomeIndices] at h
    simp only [outcomeIndices, outcomeCaptures, outcomeFrames]
    rw [runPipeline_indices] at h
    have hget := capturesOf_get? (fs.resolve args.output_dir) args.pfx ts
      args.lines_per_capture (nonEmptyFrames (fs.content (fs.resolve args.input_file)))
      (pick_indices ((nonEmptyFrames (fs.content (fs.resolve args.input_file))).length : ℤ)
        (max 1 args.max_captures)) j idx h
    have hcomm : (1 + j : ℕ) = (j + 1 : ℕ) := Nat.add_comm 1 j
    refine ⟨?_, ?_, ?_⟩
    · rw [runPipeline_indices]
      exact pick_indices_sorted _ _
    · rw [runPipeline_captures, hget]
      rw [hcomm]
      rfl
    · rw [runPipeline_captures, hget, runPipeline_frames]
      rfl
  · rw [hm] at h
    simp [outcomeIndices] at h

theorem capture_file_naming_witness :
    List.Sorted (· < ·) (outcomeIndices (main_model fsHelloDemo tsDemo gaDemo argsDemo)) ∧
    ((outcomeCaptures (main_model fsHelloDemo tsDemo gaDemo argsDemo)).get? 0).map Capture.path =
      some (fsHelloDemo.resolve argsDemo.output_dir ++ ['/'] ++ argsDemo.pfx ++ ['-'] ++
        tsDemo ++ ("-capture-").toList ++ pyPad 2 ((0 + 1 : ℕ) : ℤ) ++ ("-frame-").toList ++
        pyPad 4 0 ++ (".txt").toList) ∧
    ((outcomeCaptures (main_model fsHelloDemo tsDemo gaDemo argsDemo)).get? 0).map Capture.written =
      some (((outcomeFrames (main_model fsHelloDemo tsDemo gaDemo argsDemo)).get?
        (0 : ℤ).toNat).getD [] ++ ['\n']) :=
  capture_file_naming fsHelloDemo tsDemo gaDemo argsDemo 0 0 (by decide)

/-! ### Claim C7 -/

/-- C7: each capture's embedded preview is exactly the first
`max(1, lines_per_capture)` lines of the frame text joined by newlines —
nothing (in particular no ellipsis marker) is appended when lines are
dropped. -/
theorem preview_formula (fs : FS) (ts ga : List Char) (args : Args) :
    ∀ cap ∈ outcomeCaptures (main_model fs ts ga args),
      cap.preview =
        joinNL ((pySplitlines cap.text).take (max 1 args.lines_per_capture).toNat) := by
  intro cap hcap
  rcases main_model_cases fs ts ga args with hm | hm
  · rw [hm] at hcap
    simp only [outcomeCaptures] at hcap
    rw [runPipeline_captures] at hcap
    exact (mem_capturesOf hcap).2
  · rw [hm] at hcap
    simp [outcomeCaptures] at hcap

/-- The single capture entry of the `"hello\nworld"` demo run. -/
def capHelloDemo : Capture :=
  { frame_idx := 0
    path := ("./ui-report-20250101T000000Z-capture-01-frame-0000.txt").toList
    text := ("hello\nworld").toList
    preview := ("hello\nworld").toList }

theorem preview_formula_witness :
    capHelloDemo.preview =
      joinNL ((pySplitlines capHelloDemo.text).take (max 1 argsDemo.lines_per_capture).toNat) :=
  preview_formula fsHelloDemo tsDemo gaDemo argsDemo capHelloDemo (by decide)

/-! ### Helper lemmas: `joinNL` is a left inverse of `pySplitlines` -/

theorem joinNL_cons_of_ne_nil (x : List Char) (xs : List (List Char)) (h : xs ≠ []) :
    joinNL (x :: xs) = x ++ '\n' :: joinNL xs := by
  cases xs with
  | nil => cases h rfl
  | cons y ys => rfl

theorem pySplitlinesGoF_eq_nil :
    ∀ (fuel : ℕ) (acc l : List Char), pySplitlinesGoF fuel acc l = [] →
      acc = [] ∧ l = [] := by
  intro fuel
  induction fuel with
  | zero =>
    intro acc l h
    cases l with
    | nil =>
      by_cases ha : acc.isEmpty = true
      · exact ⟨List.isEmpty_iff.mp ha, rfl⟩
      · simp only [pySplitlinesGoF, if_neg ha] at h
        cases h
    | cons c cs =>
      simp [pySplitlinesGoF] at h
  | succ fuel ih =>
    intro acc l h
    cases l with
    | nil =>
      by_cases ha : acc.isEmpty = true
      · exact ⟨List.isEmpty_iff.mp ha, rfl⟩
      · simp only [pySplitlinesGoF, if_neg ha] at h
        cases h
    | cons c cs =>
      by_cases hcr : c = '\r'
      · simp only [pySplitlinesGoF, if_pos hcr] at h
        cases h
      · by_cases hbrk : isLineBreak c = true
        · simp only [pySplitlinesGoF, if_neg hcr, if_pos hbrk] at h
          cases h
        · simp only [pySplitlinesGoF, if_neg hcr, if_neg hbrk] at h
          have h2 := (ih (c :: acc) cs h).1
          cases h2

theorem joinNL_pySplitlinesGoF :
    ∀ (fuel : ℕ) (acc l : List Char), l.length ≤ fuel →
      (∀ c ∈ l, isLineBreak c = true → c = '\n') →
      l.getLast? ≠ some '\n' →
      joinNL (pySplitlinesGoF fuel acc l) = acc.reverse ++ l := by
  intro fuel
  induction fuel with
  | zero =>
    intro acc l hl _ _
    have hnil : l = [] := List.length_eq_zero.mp (Nat.le_zero.mp hl)
    subst hnil
    cases acc with
    | nil => rfl
    | cons a as => simp [pySplitlinesGoF, joinNL]
  | succ fuel ih =>
    intro acc l hl hbr hlast
    cases l with
    | nil =>
      cases acc with
      | nil => rfl
      | cons a as => simp [pySplitlinesGoF, joinNL]
    | cons c cs =>
      have hcr : c ≠ '\r' := by
        intro hc
        have h2 := hbr c (List.mem_cons_self _ _) (by rw [hc]; decide)
        rw [hc] at h2
        cases h2
      have hlcs : cs.length ≤ fuel := by
        simpa using Nat.le_of_succ_le_succ (by simpa using hl)
      have hbrcs : ∀ a ∈ cs, isLineBreak a = true → a = '\n' :=
        fun a ha hb => hbr a (List.mem_cons_of_mem _ ha) hb
      have hlast2 : cs.getLast? ≠ some '\n' := by
        cases cs with
        | nil => simp
        | cons y ys =>
          rw [← List.getLast?_cons_cons]
          exact hlast
      by_cases hbrk : isLineBreak c = true
      · have hcn : c = '\n' := hbr c (List.mem_cons_self _ _) hbrk
        subst hcn
        simp only [pySplitlinesGoF, if_neg hcr, if_pos hbrk]
        have hcs : cs ≠ [] := by
          intro hceq
          subst hceq
          exact hlast rfl
        have hne : pySplitlinesGoF fuel [] cs ≠ [] := by
          intro h0
          exact hcs (pySplitlinesGoF_eq_nil fuel [] cs h0).2
        rw [joinNL_cons_of_ne_nil _ _ hne, ih [] cs hlcs hbrcs hlast2]
        simp
      · simp only [pySplitlinesGoF, if_neg hcr, if_neg hbrk]
        rw [ih (c :: acc) cs hlcs hbrcs hlast2]
        simp

theorem preview_id_of_short {f : List Char}
    (hbr : ∀ c ∈ f, isLineBreak c = true → c = '\n')
    (hlast : f.getLast? ≠ some '\n') {n : ℕ} (hn : (pySplitlines f).length ≤ n) :
    joinNL ((pySplitlines f).take n) = f := by
  rw [List.take_of_length_le hn]
  unfold pySplitlines
  simpa using joinNL_pySplitlinesGoF f.length [] f (le_refl _) hbr hlast

theorem capture_text_last {fs : FS} {ts ga : List Char} {args : Args} {cap : Capture}
    (hcap : cap ∈ outcomeCaptures (main_model fs ts ga args)) :
    cap.text.getLast? ≠ some '\n' ∧
    cap.preview = joinNL ((pySplitlines cap.text).take (max 1 args.lines_per_capture).toNat) := by
  rcases main_model_cases fs ts ga args with hm | hm
  · rw [hm] at hcap
    simp only [outcomeCaptures] at hcap
    rw [runPipeline_captures] at hcap
    have hmem := mem_capturesOf hcap
    refine ⟨?_, hmem.2⟩
    rw [hmem.1]
    cases hget : (nonEmptyFrames (fs.content (fs.resolve args.input_file))).get?
        cap.frame_idx.toNat with
    | none => simp
    | some f =>
      simp only [Option.getD_some]
      exact nonEmptyFrames_last (List.get?_mem hget)
  · rw [hm] at hcap
    simp [outcomeCaptures] at hcap

/-! ### Claim C10 -/

/-- C10: when a selected frame contains no line-break characters other than
`'\n'` and fits inside the preview budget, the preview is the frame text
itself; by contrast a frame containing `'\r'` can produce a preview that
differs from the written capture-file content even though no line is dropped
(witnessed by the `"a\rb"` demo run, whose preview is `"a\nb"` while the
capture file holds `"a\rb\n"`). -/
theorem preview_identity_and_cr (fs : FS) (ts ga : List Char) (args : Args) :
    (∀ cap ∈ outcomeCaptures (main_model fs ts ga args),
      (∀ c ∈ cap.text, isLineBreak c = true → c = '\n') →
      (pySplitlines cap.text).length ≤ (max 1 args.lines_per_capture).toNat →
      cap.preview = cap.text) ∧
    ((outcomeCaptures (main_model fsCRDemo tsDemo gaDemo argsDemo)).map
        (fun c => (c.preview, c.written)) =
      [((("a\nb").toList), (("a\rb\n").toList))] ∧
     (("a\nb").toList) ≠ (("a\rb\n").toList) ∧
     ∀ cap ∈ outcomeCaptures (main_model fsCRDemo tsDemo gaDemo argsDemo),
       (pySplitlines cap.text).length ≤ (max 1 argsDemo.lines_per_capture).toNat) := by
  refine ⟨?_, by decide, by decide, by decide⟩
  intro cap hcap hbr hlen
  have h2 := capture_text_last hcap
  rw [h2.2]
  exact preview_id_of_short hbr h2.1 hlen

theorem preview_identity_and_cr_witness :
    capHelloDemo.preview = capHelloDemo.text :=
  (preview_identity_and_cr fsHelloDemo tsDemo gaDemo argsDemo).1 capHelloDemo
    (by decide) (by decide) (by decide)

